import Mathlib

/-!
Verification development for a two-pass assembler written in C.

C strings are modelled as `List Char` (the bytes before the terminating NUL).
Machine words are `Nat` with explicit masking; C `int` values (addresses,
counters, sentinels such as `-1`) are `Int`.  Each definition below mirrors
one function of the source; comments name the source file and function.
-/

namespace Asm

/-- Shorthand turning a Lean string literal into the `List Char` model of a
C string. -/
def cs (s : String) : List Char := s.data

/-- C `isspace` on the ASCII range (space, tab, newline, vertical tab,
form feed, carriage return). -/
def isspace (c : Char) : Bool :=
  c == ' ' || c == '\t' || c == '\n' || c == '\x0b' || c == '\x0c' || c == '\r'

/-- C `isdigit`. -/
def isdigit (c : Char) : Bool := '0' ≤ c && c ≤ '9'

/-- C `isalpha` (ASCII). -/
def isalphaCh (c : Char) : Bool := ('a' ≤ c && c ≤ 'z') || ('A' ≤ c && c ≤ 'Z')

/-- C `isalnum` (ASCII). -/
def isalnumCh (c : Char) : Bool := isalphaCh c || isdigit c

/-- `handle_comment` (utilities.c): truncate the line at the first `;`. -/
def handle_comment (s : List Char) : List Char :=
  s.takeWhile (fun c => c ≠ ';')

/-- One step of the `handle_extra_spaces` loop (utilities.c); `acc` is the
written output in reverse, `in_word` the flag of the C loop. -/
def hes_go : List Char → List Char → Bool → List Char
  | [], acc, _ =>
    (match acc with
     | ' ' :: acc' => acc'.reverse
     | _ => acc.reverse)
  | c :: r, acc, in_word =>
    if isspace c then
      if in_word then hes_go r (' ' :: acc) false else hes_go r acc false
    else if c = ',' then
      (match acc with
       | ' ' :: acc' => hes_go r (',' :: acc') false
       | _ => hes_go r (',' :: acc) false)
    else hes_go r (c :: acc) true

/-- `handle_extra_spaces` (utilities.c): collapse whitespace runs to a single
space and delete spaces adjacent to commas; drop a trailing space. -/
def handle_extra_spaces (s : List Char) : List Char :=
  hes_go s [] false

/-- `trim` (utilities.c): drop leading and trailing whitespace. -/
def trim (s : List Char) : List Char :=
  (((s.dropWhile isspace).reverse).dropWhile isspace).reverse

/-- `is_register` (utilities.c): exactly `r0`..`r7`. -/
def is_register : List Char → Bool
  | c0 :: c1 :: rest => c0 == 'r' && '0' ≤ c1 && c1 ≤ '7' && rest.isEmpty
  | _ => false

/-- `get_register_number` (utilities.c). -/
def get_register_number : List Char → Int
  | c0 :: c1 :: rest =>
    if c0 == 'r' && '0' ≤ c1 && c1 ≤ '7' && rest.isEmpty then
      (c1.toNat : Int) - ('0'.toNat : Int)
    else -1
  | _ => -1

/-- `is_number` (utilities.c): optional leading `#`, optional sign, then one
or more decimal digits. -/
def is_number (s : List Char) : Bool :=
  let s1 := match s with
    | '#' :: r => r
    | _ => s
  let s2 := match s1 with
    | c :: r => if c == '-' || c == '+' then r else s1
    | _ => s1
  !s2.isEmpty && s2.all isdigit

/-- `validate_string` (utilities.c): double-quoted, no inner quote. -/
def validate_string (s : List Char) : Bool :=
  decide (2 ≤ s.length) && s.head? == some '"' && s.getLast? == some '"' &&
    ((s.drop 1).dropLast.all (fun c => c ≠ '"'))

/-- `get_addressing_mode` (utilities.c).  `none` models a NULL pointer. -/
def get_addressing_mode : Option (List Char) → Int
  | none => 4
  | some l =>
    if l = [] ∨ l = [' '] then 4
    else if l.head? = some '#' ∧ is_number l then 0
    else if l.head? = some 'r' ∧ is_register l then 3
    else if l.head? = some '*' ∧ l.tail.head? = some 'r' ∧ is_register l.tail then 2
    else 1

/-- The opcode catalog (opcode_table.c): mnemonic, opcode, operand count. -/
def opcode_table : List (List Char × Int × Int) :=
  [(cs "mov", 0, 2), (cs "cmp", 1, 2), (cs "add", 2, 2), (cs "sub", 3, 2),
   (cs "lea", 4, 2), (cs "clr", 5, 1), (cs "not", 6, 1), (cs "inc", 7, 1),
   (cs "dec", 8, 1), (cs "jmp", 9, 1), (cs "bne", 10, 1), (cs "red", 11, 1),
   (cs "prn", 12, 1), (cs "jsr", 13, 1), (cs "rts", 14, 0), (cs "stop", 15, 0)]

/-- `get_opcode` (opcode_table.c): first matching entry, else `-1`. -/
def get_opcode (mnemonic : List Char) : Int :=
  match opcode_table.find? (fun e => e.1 == mnemonic) with
  | some e => e.2.1
  | none => -1

/-- `get_operand_count` (opcode_table.c). -/
def get_operand_count (mnemonic : List Char) : Int :=
  match opcode_table.find? (fun e => e.1 == mnemonic) with
  | some e => e.2.2
  | none => -1

/-- `is_directive` (utilities.c). -/
def is_directive (token : List Char) : Bool :=
  token.head? == some '.' &&
    (token == cs ".data" || token == cs ".string" ||
     token == cs ".entry" || token == cs ".extern")

/-- `is_label` (utilities.c). -/
def is_label (token : List Char) : Bool :=
  match token with
  | [] => false
  | c :: rest =>
    if 31 < (c :: rest).length then false
    else if !isalphaCh c then false
    else if is_register (c :: rest) || get_opcode (c :: rest) ≠ -1 then false
    else rest.all isalnumCh

/-- The `sscanf(operands, "%[^,], %s", source, target)` call shared by
`get_instruction_length` and `encode_instruction` (utilities.c):
`%[^,]` takes the maximal nonempty comma-free prefix (failing on an empty
one, which leaves both buffers empty), the literal `", "` consumes the comma
and any whitespace, and `%s` takes the next whitespace-free run. -/
def scan_operands (s : List Char) : List Char × List Char :=
  let src := s.takeWhile (fun c => c ≠ ',')
  if src = [] then ([], [])
  else
    match s.dropWhile (fun c => c ≠ ',') with
    | ',' :: r => (src, ((r.dropWhile isspace).takeWhile (fun c => !isspace c)))
    | _ => (src, [])

/-- `get_instruction_length` (utilities.c).  `none` models a NULL operands
pointer (the early `return 1`). -/
def get_instruction_length (operation : List Char) (operands : Option (List Char)) : Int :=
  match operands with
  | none => 1
  | some ops =>
    let p := scan_operands ops
    let src := trim p.1
    let tgt := trim p.2
    let source_mode := get_addressing_mode (some src)
    let target_mode := get_addressing_mode (some tgt)
    let operand_count : Int :=
      (if src ≠ [] then 1 else 0) + (if tgt ≠ [] then 1 else 0)
    let length : Int := 1 + operand_count
    if operand_count ≠ get_operand_count operation then -1
    else if (source_mode = 3 ∨ source_mode = 2) ∧ (target_mode = 3 ∨ target_mode = 2) then 2
    else length

/-- Value of a digit run, used by `atoi`. -/
def digits_val (l : List Char) : Int :=
  l.foldl (fun a c => a * 10 + ((c.toNat : Int) - ('0'.toNat : Int))) 0

/-- C `atoi`: skip whitespace, optional sign, leading digit run. -/
def atoi (s : List Char) : Int :=
  let s1 := s.dropWhile isspace
  match s1 with
  | '-' :: r => -(digits_val (r.takeWhile isdigit))
  | '+' :: r => digits_val (r.takeWhile isdigit)
  | _ => digits_val (s1.takeWhile isdigit)

/-- The maximal nonempty delimiter-free segments of `s`: the token sequence
produced by a C `strtok` loop over `s` with delimiter set `delims`.
`cur` is the token being accumulated, in reverse. -/
def segments_go (delims : List Char) : List Char → List Char → List (List Char)
  | [], cur => if cur = [] then [] else [cur.reverse]
  | c :: r, cur =>
    if delims.contains c then
      (if cur = [] then segments_go delims r [] else cur.reverse :: segments_go delims r [])
    else segments_go delims r (c :: cur)

/-- See `segments_go`. -/
def segments (delims : List Char) (s : List Char) : List (List Char) :=
  segments_go delims s []

/-- `count_data_values` (utilities.c): number of `strtok` tokens for
delimiter `","`. -/
def count_data_values (operands : List Char) : Int :=
  ((segments [','] operands).length : Int)

/-- One C `strtok` call: skip leading delimiters, return the token (empty
for a NULL result) and the rest of the buffer after the single delimiter
that terminated the token. -/
def strtok1 (s : List Char) (delims : List Char) : List Char × List Char :=
  let s1 := s.dropWhile (fun c => delims.contains c)
  let tok := s1.takeWhile (fun c => !delims.contains c)
  let rest := s1.dropWhile (fun c => !delims.contains c)
  (tok, match rest with
        | [] => []
        | _ :: r => r)

/-! ## Symbol table and error sink (symbol_table.c, error_handling.c) -/

/-- `SymbolType` (symbol_table.h). -/
inductive SymbolType where
  | code
  | data
  | entry
  | external
deriving DecidableEq, Repr

/-- `Symbol` (symbol_table.h). -/
structure Symbol where
  name : List Char
  address : Int
  type : SymbolType
deriving DecidableEq, Repr

/-- `ExternalSymbol` (symbol_table.h): a name and its reference addresses. -/
structure ExternalSymbol where
  name : List Char
  references : List Int
deriving DecidableEq, Repr

/-- `SymbolTable` (symbol_table.h). -/
structure SymbolTable where
  symbols : List Symbol
  has_entries : Bool
  has_externs : Bool
  external_table : List ExternalSymbol
deriving DecidableEq, Repr

/-- `init_symbol_table` (symbol_table.c). -/
def init_symbol_table : SymbolTable :=
  { symbols := [], has_entries := false, has_externs := false, external_table := [] }

/-- `ErrorCategory` (error_handling.h). -/
inductive ErrorCategory where
  | ERR_MEMORY
  | ERR_FILE_INPUT
  | ERR_FILE_OUTPUT
  | ERR_SYNTAX
  | ERR_SEMANTIC
  | ERR_MACRO
  | ERR_OVERFLOW
  | ERR_SYMBOL
deriving DecidableEq, Repr

/-- One logged error: category and specific message (error_handling.c). -/
abbrev LogEntry := ErrorCategory × String

/-- `log_error` (error_handling.c): append, capped at `MAX_ERRORS = 100`. -/
def log_error (log : List LogEntry) (cat : ErrorCategory) (msg : String) : List LogEntry :=
  if log.length < 100 then log ++ [(cat, msg)] else log

/-- `find_symbol` (symbol_table.c): first entry with the given name. -/
def find_symbol (t : SymbolTable) (name : List Char) : Option Symbol :=
  t.symbols.find? (fun s => s.name == name)

/-- Result of `add_symbol`. -/
structure AddSymbolResult where
  ok : Bool
  table : SymbolTable
  log : List LogEntry
deriving DecidableEq, Repr

/-- `add_symbol` (symbol_table.c): reject duplicates and macro-name clashes
(each rejection logs a `Symbol` error), truncate the stored name to
`MAX_LABEL_LENGTH = 31` characters, set the entry/extern flags from the
type. -/
def add_symbol (t : SymbolTable) (macr_names : List (List Char)) (name : List Char)
    (address : Int) (ty : SymbolType) (log : List LogEntry) : AddSymbolResult :=
  if t.symbols.any (fun s => s.name == name) then
    ⟨false, t, log_error log .ERR_SYMBOL "Duplicate symbol definition"⟩
  else if macr_names.any (fun m => m == name) then
    ⟨false, t, log_error log .ERR_SYMBOL "Symbol name conflicts with macro name"⟩
  else
    ⟨true,
     { t with
       symbols := t.symbols ++ [⟨name.take 31, address, ty⟩]
       has_entries := t.has_entries || decide (ty = .entry)
       has_externs := t.has_externs || decide (ty = .external) },
     log⟩

/-- `add_external_reference` (symbol_table.c): append `address` to the list
of the first entry named `name`, but only while it holds fewer than
`MAX_EXTERNAL_REFERENCES = 100` addresses; create the entry at the end of
the table when absent. -/
def add_external_reference : List ExternalSymbol → List Char → Int → List ExternalSymbol
  | [], name, address => [⟨name, [address]⟩]
  | e :: rest, name, address =>
    if e.name == name then
      (if e.references.length < 100 then
        { e with references := e.references ++ [address] }
      else e) :: rest
    else e :: add_external_reference rest name address

/-! ## Encoder (utilities.c) -/

/-- `Instruction` (utilities.h).  The C fields are `unsigned int`, but the
operand fields receive `int` values from `encode_operand` and are compared
against `-1`, so they are modelled as `Int`. -/
structure Instruction where
  opcode : Int
  source_addressing : Int
  target_addressing : Int
  are : Nat
  source_are : Nat
  target_are : Nat
  source_operand : Int
  target_operand : Int
deriving DecidableEq, Repr

/-- Result of `encode_operand`: the returned value, the written `*are`, and
the possibly extended external-reference table. -/
structure EncodeOperandResult where
  value : Int
  are : Nat
  externals : List ExternalSymbol
deriving DecidableEq, Repr

/-- `encode_operand` (utilities.c).  `address + (is_source ? 1 : 2)` is the
address recorded for an external reference. -/
def encode_operand (operand : List Char) (table : SymbolTable) (are : Nat)
    (address : Int) (is_source : Bool) : EncodeOperandResult :=
  let mode := get_addressing_mode (some operand)
  if mode = 0 then
    ⟨(atoi (operand.drop 1)).emod 4096, 4, table.external_table⟩
  else if mode = 1 then
    match find_symbol table operand with
    | some symbol =>
      if symbol.type = .external then
        ⟨1, 1,
         add_external_reference table.external_table operand
           (address + (if is_source then 1 else 2))⟩
      else ⟨symbol.address, 2, table.external_table⟩
    | none => ⟨-1, are, table.external_table⟩
  else if mode = 2 then
    ⟨(get_register_number (operand.drop 1)).emod 8, 4, table.external_table⟩
  else if mode = 3 then
    ⟨(get_register_number operand).emod 8, 4, table.external_table⟩
  else
    ⟨-1, are, table.external_table⟩

/-- `encode_instruction` (utilities.c): parse operands with the shared
`sscanf`, move a single operand into the target slot, encode source then
target (threading the external-reference table), and propagate a `-1`
operand as a `-1` opcode. -/
def encode_instruction (operation : List Char) (operands : Option (List Char))
    (table : SymbolTable) (address : Int) : Instruction × SymbolTable :=
  let opcode := get_opcode operation
  let p := match operands with
    | none => ([], [])
    | some ops => scan_operands ops
  let src0 := trim p.1
  let tgt0 := trim p.2
  let src := if tgt0 = [] then [] else src0
  let tgt := if tgt0 = [] then src0 else tgt0
  let source_addressing := get_addressing_mode (some src)
  let target_addressing := get_addressing_mode (some tgt)
  let rs :=
    if source_addressing ≠ 4 then encode_operand src table 4 address true
    else ⟨0, 4, table.external_table⟩
  let table1 := { table with external_table := rs.externals }
  let rt :=
    if target_addressing ≠ 4 then encode_operand tgt table1 4 address false
    else ⟨0, 4, table1.external_table⟩
  let table2 := { table1 with external_table := rt.externals }
  let opcode' := if rt.value = -1 ∨ rs.value = -1 then -1 else opcode
  (⟨opcode', source_addressing, target_addressing, 4, rs.are, rt.are, rs.value, rt.value⟩,
   table2)

/-- The first output word built by `write_instruction` (utilities.c):
opcode at bits 11..14, one-hot source mode bit at `7 + mode`, one-hot
target mode bit at `3 + mode`, A.R.E. `4`. -/
def first_word (opcode source_addressing target_addressing : Int) : Nat :=
  ((opcode.emod 16).toNat <<< 11) |||
  (if source_addressing ≠ 4 then 1 <<< (7 + source_addressing).toNat else 0) |||
  (if target_addressing ≠ 4 then 1 <<< (3 + target_addressing).toNat else 0) ||| 4

/-- `write_instruction` (utilities.c), as the list of `(address, word)`
lines printed to the object stream. -/
def write_instruction (inst : Instruction) (address : Int) : List (Int × Nat) :=
  let fw := first_word inst.opcode inst.source_addressing inst.target_addressing &&& 0x7FFF
  if (inst.source_addressing = 2 ∨ inst.source_addressing = 3) ∧
     (inst.target_addressing = 2 ∨ inst.target_addressing = 3) then
    let reg_word := ((inst.source_operand.emod 8).toNat <<< 6) |||
                    ((inst.target_operand.emod 8).toNat <<< 3) ||| 4
    [(address, fw), (address + 1, reg_word)]
  else
    let src_words : List (Int × Nat) :=
      if inst.source_addressing ≠ 4 then
        let w : Nat :=
          if inst.source_are = 1 then inst.source_are &&& 7
          else if inst.source_addressing = 1 then
            ((inst.source_operand.emod 4096).toNat <<< 3) ||| (inst.source_are &&& 7)
          else ((inst.source_operand.emod 8).toNat <<< 6) ||| 4
        [(address + 1, w)]
      else []
    let add_words : Int := 1 + src_words.length
    let tgt_words : List (Int × Nat) :=
      if inst.target_addressing ≠ 4 then
        let w : Nat :=
          if inst.target_are = 1 then inst.target_are &&& 7
          else if inst.target_addressing = 0 then
            ((inst.target_operand.emod 4096).toNat <<< 3) ||| 4
          else if inst.target_addressing = 1 then
            ((inst.target_operand.emod 4096).toNat <<< 3) ||| (inst.target_are &&& 7)
          else ((inst.target_operand.emod 8).toNat <<< 3) ||| 4
        [(address + add_words, w)]
      else []
    (address, fw) :: (src_words ++ tgt_words)

/-- `write_data` (utilities.c): one word `value mod 2^15` per `strtok`
token; returns the emitted lines and the advanced address. -/
def write_data (data : List Char) (address : Int) : List (Int × Nat) × Int :=
  (segments [','] data).foldl
    (fun (st : List (Int × Nat) × Int) tok =>
      (st.1 ++ [(st.2, ((atoi tok).emod 32768).toNat)], st.2 + 1))
    ([], address)

/-- `write_string` (utilities.c): the characters after the opening quote up
to the closing quote, then a terminating `0` word. -/
def write_string (operands : List Char) (address : Int) : List (Int × Nat) × Int :=
  let chars := (operands.drop 1).takeWhile (fun c => c ≠ '"')
  let body := (chars.enum.map (fun p => ((address + (p.1 : Int), p.2.toNat) : Int × Nat)))
  (body ++ [(address + (chars.length : Int), 0)], address + (chars.length : Int) + 1)

/-! ## First pass (first_pass.c) -/

/-- Mutable state of the `first_pass` loop: the counters, the symbol table,
the error flag and the error sink. `FIRST_ADDRESS = 100`. -/
structure FPState where
  IC : Int
  DC : Int
  table : SymbolTable
  error_found : Bool
  log : List LogEntry
deriving DecidableEq, Repr

/-- Label/operation/operands split of one normalized line, via the
`strtok` calls of `first_pass` (first_pass.c lines 62-82).  The label is
the first token when it ends in `:` (colon removed, `strncpy` truncation to
31 chars); the operation is the next token (truncated to 31); the operands
are the trimmed rest of the line. -/
def fp_parse (line : List Char) : List Char × List Char × List Char :=
  let t1 := strtok1 line [' ', '\t', '\n']
  if t1.1 ≠ [] ∧ t1.1.getLast? = some ':' then
    let label := (t1.1.dropLast).take 31
    let t2 := strtok1 t1.2 [' ', '\t']
    (label, t2.1.take 31, trim ((strtok1 t2.2 ['\n']).1.take 80))
  else
    (([] : List Char), t1.1.take 31, trim ((strtok1 t1.2 ['\n']).1.take 80))

/-- The `.extern` token loop of `first_pass` (first_pass.c lines 124-131):
add each token as an `External` symbol at address 0; on failure log an
extra `Duplicate external symbol definition` error. -/
def extern_fold (macr_names : List (List Char)) : List (List Char) → FPState → FPState
  | [], st => st
  | tok :: rest, st =>
    let r := add_symbol st.table macr_names tok 0 .external st.log
    let st' :=
      if r.ok then { st with table := r.table, log := r.log }
      else
        { st with
          table := r.table
          log := log_error r.log .ERR_SYMBOL "Duplicate external symbol definition"
          error_found := true }
    extern_fold macr_names rest st'

/-- The dispatch of `first_pass` on one parsed line (first_pass.c lines
84-152): directives update `DC` and the table, catalog mnemonics advance
`IC` by the instruction length, anything else is an `Unknown operation`
error. -/
def fp_dispatch (macr_names : List (List Char)) (st : FPState)
    (label operation operands : List Char) : FPState :=
  if is_directive operation then
    if operation = cs ".data" then
      let st1 :=
        if label ≠ [] then
          let r := add_symbol st.table macr_names label st.DC .data st.log
          { st with table := r.table, log := r.log, error_found := st.error_found || !r.ok }
        else st
      let data_count := count_data_values operands
      if data_count = -1 then
        { st1 with
          error_found := true
          log := log_error st1.log .ERR_SYNTAX "Invalid .data directive" }
      else { st1 with DC := st1.DC + data_count }
    else if operation = cs ".string" then
      let st1 :=
        if label ≠ [] then
          let r := add_symbol st.table macr_names label st.DC .data st.log
          { st with table := r.table, log := r.log, error_found := st.error_found || !r.ok }
        else st
      if !validate_string operands then
        { st1 with
          error_found := true
          log := log_error st1.log .ERR_SYNTAX "Invalid .string directive" }
      else { st1 with DC := st1.DC + ((operands.length : Int) - 2 + 1) }
    else if operation = cs ".entry" then
      { st with table := { st.table with has_entries := true } }
    else
      let ops := trim operands
      if ops = [] then
        { st with
          error_found := true
          log := log_error st.log .ERR_SYNTAX "Missing operand for .extern directive" }
      else
        let st' := extern_fold macr_names (segments [',', ' ', '\t'] ops) st
        { st' with table := { st'.table with has_externs := true } }
  else if get_opcode operation ≠ -1 then
    let inst_length := get_instruction_length operation (some operands)
    if inst_length = -1 then
      { st with
        error_found := true
        log := log_error st.log .ERR_SYNTAX "Invalid instruction format" }
    else
      let st1 :=
        if label ≠ [] then
          let r := add_symbol st.table macr_names label st.IC .code st.log
          { st with table := r.table, log := r.log, error_found := st.error_found || !r.ok }
        else st
      { st1 with IC := st1.IC + inst_length }
  else
    { st with
      error_found := true
      log := log_error st.log .ERR_SYNTAX "Unknown operation" }

/-- One iteration of the `first_pass` line loop: normalize the raw line
(comment strip, whitespace collapse, trim), skip empty lines, reject
over-long lines, otherwise parse and dispatch.  Illegal labels are rejected
before dispatch (first_pass.c lines 63-71). -/
def first_pass_line (macr_names : List (List Char)) (st : FPState) (raw : List Char) : FPState :=
  let line := trim (handle_extra_spaces (handle_comment raw))
  if line = [] then st
  else if 80 < line.length then
    { st with
      error_found := true
      log := log_error st.log .ERR_SYNTAX "Line exceeds maximum length" }
  else
    let t1 := strtok1 line [' ', '\t', '\n']
    if t1.1 ≠ [] ∧ t1.1.getLast? = some ':' ∧ ¬ is_label ((t1.1.dropLast).take 31) then
      { st with
        error_found := true
        log := log_error st.log .ERR_SYNTAX "Illegal label" }
    else
      let p := fp_parse line
      fp_dispatch macr_names st p.1 p.2.1 p.2.2

/-- `first_pass` (first_pass.c) on a list of raw lines: fold the line loop
from `IC = 100`, `DC = 0`, then rebase every `Data` symbol by the final
`IC` (lines 158-163). -/
def first_pass (lines : List (List Char)) (macr_names : List (List Char)) : FPState :=
  let st := lines.foldl (first_pass_line macr_names)
    ⟨100, 0, init_symbol_table, false, []⟩
  { st with
    table :=
      { st.table with
        symbols :=
          st.table.symbols.map (fun s =>
            if s.type = .data then { s with address := s.address + st.IC } else s) } }

/-! ## Second pass (second_pass.c) and output generation (output_generator.c) -/

/-- Mutable state of the `second_pass` loop: the address cursor (starting
at `FIRST_ADDRESS = 100`), the symbol table, the error flag, the error sink
and the `(address, word)` lines written to the temporary object stream. -/
structure SPState where
  address : Int
  table : SymbolTable
  error_found : Bool
  log : List LogEntry
  ob : List (Int × Nat)
deriving DecidableEq, Repr

/-- Promote the first symbol named `name` to `Entry` (the in-place
`symbol->type = SYMBOL_TYPE_ENTRY` of second_pass.c line 67). -/
def set_symbol_entry : List Symbol → List Char → List Symbol
  | [], _ => []
  | s :: r, name =>
    if s.name == name then { s with type := .entry } :: r
    else s :: set_symbol_entry r name

/-- The `.entry` branch of `second_pass` (second_pass.c lines 61-82).
`symbol_name = []` models a NULL `strtok` result (missing operand). -/
def handle_entry (st : SPState) (symbol_name : List Char) : SPState :=
  if symbol_name ≠ [] then
    match find_symbol st.table symbol_name with
    | some symbol =>
      if symbol.type ≠ .external then
        { st with table :=
            { st.table with
              symbols := set_symbol_entry st.table.symbols symbol_name
              has_entries := true } }
      else
        { st with
          error_found := true
          log := log_error st.log .ERR_SYMBOL "Symbol declared as both .extern and .entry" }
    | none =>
      { st with
        error_found := true
        log := log_error st.log .ERR_SYMBOL "Entry symbol not found in symbol table" }
  else
    { st with
      error_found := true
      log := log_error st.log .ERR_SYNTAX "Missing operand for .entry directive" }

/-- One iteration of the `second_pass` line loop (second_pass.c lines
34-98).  A NULL token after a lone label (a line the error-free first pass
cannot produce) is skipped. -/
def second_pass_line (st : SPState) (raw : List Char) : SPState :=
  let line := trim (handle_extra_spaces (handle_comment raw))
  if line = [] then st
  else
    let t1 := strtok1 line [' ', '\t']
    let tok := if t1.1 ≠ [] ∧ t1.1.getLast? = some ':' then strtok1 t1.2 [' ', '\t'] else t1
    if tok.1 = [] then st
    else if tok.1 = cs ".data" ∨ tok.1 = cs ".string" then
      let operands := (strtok1 tok.2 ['\n']).1
      if tok.1 = cs ".data" then
        let r := write_data operands st.address
        { st with ob := st.ob ++ r.1, address := r.2 }
      else
        let r := write_string operands st.address
        { st with ob := st.ob ++ r.1, address := r.2 }
    else if tok.1 = cs ".entry" then
      handle_entry st (strtok1 tok.2 [' ', '\t', '\n']).1
    else if get_opcode tok.1 ≠ -1 then
      let opTok := (strtok1 tok.2 ['\n']).1
      let operands : Option (List Char) := if opTok = [] then none else some opTok
      let r := encode_instruction tok.1 operands st.table st.address
      if r.1.opcode = -1 then
        { st with
          error_found := true
          log := log_error st.log .ERR_SYNTAX "Failed to encode instruction"
          table := r.2 }
      else
        { st with
          table := r.2
          ob := st.ob ++ write_instruction r.1 st.address
          address := st.address + get_instruction_length tok.1 operands }
    else st

/-- `generate_ent_file` (output_generator.c): one `(name, address)` line per
`Entry` symbol, in table order. -/
def generate_ent_file (t : SymbolTable) : List (List Char × Int) :=
  (t.symbols.filter (fun s => s.type == SymbolType.entry)).map (fun s => (s.name, s.address))

/-- `generate_ext_file` (output_generator.c): one `(name, address)` line per
recorded external reference. -/
def generate_ext_file (t : SymbolTable) : List (List Char × Int) :=
  (t.external_table.map (fun e => e.references.map (fun r => (e.name, r)))).flatten

/-- The output files of `generate_output` (output_generator.c): the `.ob`
header `IC - 100, DC` and code stream, the `.ent` lines when the table has
entries, the `.ext` lines when it has externs. -/
structure OutputFiles where
  ob_header : Int × Int
  ob_words : List (Int × Nat)
  ent_lines : Option (List (List Char × Int))
  ext_lines : Option (List (List Char × Int))
deriving DecidableEq, Repr

/-- `generate_output` (output_generator.c). -/
def generate_output (t : SymbolTable) (IC DC : Int) (ob : List (Int × Nat)) : OutputFiles :=
  { ob_header := (IC - 100, DC)
    ob_words := ob
    ent_lines := if t.has_entries then some (generate_ent_file t) else none
    ext_lines := if t.has_externs then some (generate_ext_file t) else none }

/-- `second_pass` (second_pass.c): fold the line loop, then emit the output
files only when no error was found. -/
def second_pass (lines : List (List Char)) (table : SymbolTable) (IC DC : Int) :
    SPState × Option OutputFiles :=
  let st := lines.foldl second_pass_line ⟨100, table, false, [], []⟩
  if st.error_found then (st, none)
  else (st, some (generate_output st.table IC DC st.ob))

/-- The first-pass-to-second-pass handoff (first_pass.c lines 165-168):
the second pass runs only when the first pass found no error. -/
def assemble (lines : List (List Char)) (macr_names : List (List Char)) :
    FPState × Option OutputFiles :=
  let fp := first_pass lines macr_names
  if fp.error_found then (fp, none)
  else (fp, (second_pass lines fp.table fp.IC fp.DC).2)

/-! ## Pre-assembler (pre_assembler.c) -/

/-- A macro of the macro table (pre_assembler.h): name and body lines. -/
structure Macr where
  name : List Char
  body : List (List Char)
deriving DecidableEq, Repr

/-- `is_reserved_word` (pre_assembler.c). -/
def is_reserved_word (word : List Char) : Bool :=
  (get_opcode word != -1) || is_register word ||
    ([cs "macr", cs "endmacr", cs "data", cs "string", cs "entry", cs "extern"]).contains word

/-- `is_valid_macro_name` (pre_assembler.c).  An empty name (a failed
`sscanf`, which in C leaves the buffer stale) reads the terminating NUL,
which is not alphabetic. -/
def is_valid_macr_name (name : List Char) : Bool :=
  isalphaCh (name.headD ' ') && (name.drop 1).all isalnumCh && !is_reserved_word name

/-- `pre_assembler` (pre_assembler.c), one output line per input line.  The
`some m` state is an `add_macro` call in progress, collecting body lines;
it ends at the first line trimming to `endmacr` (`add_macro` rewinds before
that line and the main loop then drops it, modelled here as consuming it
with no output) or at end of input.  Outside a definition: an over-long
trimmed line is dropped with an error, a line whose trimmed form starts
with `macr` opens a definition (an invalid name is an error), a line
trimming to `endmacr` is dropped, a line equal (trimmed) to a known macro
name expands to its body, and anything else is copied verbatim. -/
def pre_asm_go : List (List Char) → List Macr → Option Macr →
    List (List Char) × List Macr × Bool
  | [], mt, none => ([], mt, false)
  | [], mt, some m => ([], mt ++ [m], false)
  | line :: rest, mt, some m =>
    if trim line = cs "endmacr" then pre_asm_go rest (mt ++ [m]) none
    else pre_asm_go rest mt (some ⟨m.name, m.body ++ [line]⟩)
  | line :: rest, mt, none =>
    let trimmed := trim line
    if 80 < trimmed.length then
      let r := pre_asm_go rest mt none
      (r.1, r.2.1, true)
    else if trimmed.take 4 = cs "macr" then
      let nm := ((trimmed.drop 4).dropWhile isspace).takeWhile (fun c => !isspace c)
      if is_valid_macr_name nm then pre_asm_go rest mt (some ⟨nm, []⟩)
      else
        let r := pre_asm_go rest mt none
        (r.1, r.2.1, true)
    else if trimmed = cs "endmacr" then
      pre_asm_go rest mt none
    else
      match mt.find? (fun m => m.name == trimmed) with
      | some m =>
        let r := pre_asm_go rest mt none
        (m.body ++ r.1, r.2.1, r.2.2)
      | none =>
        let r := pre_asm_go rest mt none
        (line :: r.1, r.2.1, r.2.2)

/-- See `pre_asm_go`: the whole pre-assembler run, returning the output
lines, the final macro table and the error flag. -/
def pre_asm (lines : List (List Char)) (mt : List Macr) :
    List (List Char) × List Macr × Bool :=
  pre_asm_go lines mt none

/-! ## Helper lemmas -/

theorem trim_length_le (s : List Char) : (trim s).length ≤ s.length := by
  unfold trim
  simp only [List.length_reverse]
  calc ((s.dropWhile isspace).reverse.dropWhile isspace).length
      ≤ (s.dropWhile isspace).reverse.length :=
        List.Sublist.length_le (List.dropWhile_sublist _)
    _ = (s.dropWhile isspace).length := List.length_reverse _
    _ ≤ s.length := List.Sublist.length_le (List.dropWhile_sublist _)

theorem trim_ne_space (s : List Char) : trim s ≠ [' '] := by
  unfold trim
  intro h
  have h1 : ((s.dropWhile isspace).reverse).dropWhile isspace = [' '] := by
    have h2 := congrArg List.reverse h
    simpa using h2
  have h3 := List.head_dropWhile_not isspace ((s.dropWhile isspace).reverse) (by simp [h1])
  simp [h1, isspace] at h3

theorem get_addressing_mode_eq_four (l : List Char) :
    get_addressing_mode (some l) = 4 ↔ l = [] ∨ l = [' '] := by
  simp only [get_addressing_mode]
  split_ifs with h1 h2 h3 h4 <;> simp_all

theorem mode_trim_eq_four (s : List Char) :
    get_addressing_mode (some (trim s)) = 4 ↔ trim s = [] := by
  rw [get_addressing_mode_eq_four]
  have h := trim_ne_space s
  constructor
  · rintro (h1 | h1)
    · exact h1
    · exact absurd h1 h
  · exact fun h1 => Or.inl h1

theorem is_register_head (l : List Char) (h : is_register l = true) : l.head? = some 'r' := by
  match l with
  | [] => simp [is_register] at h
  | [c] => simp [is_register] at h
  | c0 :: c1 :: rest =>
    simp only [is_register, Bool.and_eq_true, beq_iff_eq] at h
    simp [h.1.1.1]

theorem get_instruction_length_ge_one (operation : List Char) (operands : Option (List Char))
    (h : get_instruction_length operation operands ≠ -1) :
    1 ≤ get_instruction_length operation operands := by
  cases operands with
  | none => simp [get_instruction_length]
  | some ops =>
    simp only [get_instruction_length] at h ⊢
    split_ifs at h ⊢ <;> omega

theorem mode_mem_range (s : Option (List Char)) :
    get_addressing_mode s = 0 ∨ get_addressing_mode s = 1 ∨ get_addressing_mode s = 2 ∨
      get_addressing_mode s = 3 ∨ get_addressing_mode s = 4 := by
  cases s with
  | none => simp [get_addressing_mode]
  | some l =>
    simp only [get_addressing_mode]
    split_ifs <;> simp

theorem mode_eq_four_iff (s : Option (List Char)) :
    get_addressing_mode s = 4 ↔ s = none ∨ s = some [] ∨ s = some [' '] := by
  cases s with
  | none => simp [get_addressing_mode]
  | some l =>
    rw [get_addressing_mode_eq_four]
    simp

theorem mode_eq_zero_iff (l : List Char) :
    get_addressing_mode (some l) = 0 ↔ l.head? = some '#' ∧ is_number l = true := by
  simp only [get_addressing_mode]
  split_ifs with h1 h2 h3 h4
  · constructor
    · intro h; omega
    · intro h
      rcases h1 with h1 | h1 <;> subst h1 <;> simp at h
  · simp [h2]
  · constructor
    · intro h; omega
    · intro h
      have hr := is_register_head l h3.2
      rw [hr] at h
      exact absurd h.1 (by simp)
  · constructor
    · intro h; omega
    · intro h
      rw [h4.1] at h
      exact absurd h.1 (by simp)
  · constructor
    · intro h; omega
    · intro h; exact absurd h h2

theorem mode_eq_three_iff (l : List Char) :
    get_addressing_mode (some l) = 3 ↔ is_register l = true := by
  simp only [get_addressing_mode]
  split_ifs with h1 h2 h3 h4
  · constructor
    · intro h; omega
    · intro h
      rcases h1 with h1 | h1 <;> subst h1 <;> simp [is_register] at h
  · constructor
    · intro h; omega
    · intro h
      have hr := is_register_head l h
      rw [hr] at h2
      exact absurd h2.1 (by simp)
  · simpa using h3.2
  · constructor
    · intro h; omega
    · intro h
      have hr := is_register_head l h
      rw [hr] at h4
      exact absurd h4.1 (by simp)
  · constructor
    · intro h; omega
    · intro h
      exact absurd ⟨is_register_head l h, h⟩ h3

theorem mode_eq_two_iff (l : List Char) :
    get_addressing_mode (some l) = 2 ↔ l.head? = some '*' ∧ is_register l.tail = true := by
  simp only [get_addressing_mode]
  split_ifs with h1 h2 h3 h4
  · constructor
    · intro h; omega
    · intro h
      rcases h1 with h1 | h1 <;> subst h1 <;> simp at h
  · constructor
    · intro h; omega
    · intro h
      rw [h.1] at h2
      exact absurd h2.1 (by simp)
  · constructor
    · intro h; omega
    · intro h
      have hr := is_register_head l h3.2
      rw [hr] at h
      exact absurd h.1 (by simp)
  · simp [h4.1, h4.2.2]
  · constructor
    · intro h; omega
    · intro h
      exact absurd ⟨h.1, is_register_head l.tail h.2, h.2⟩ h4

theorem mode_eq_one_of (l : List Char) (h0 : l ≠ []) (h1 : l ≠ [' '])
    (h2 : ¬(l.head? = some '#' ∧ is_number l = true))
    (h3 : is_register l = false)
    (h4 : ¬(l.head? = some '*' ∧ is_register l.tail = true)) :
    get_addressing_mode (some l) = 1 := by
  simp only [get_addressing_mode]
  rw [if_neg (by simp [h0, h1]), if_neg h2, if_neg (by simp [h3]),
    if_neg (by intro h; exact h4 ⟨h.1, h.2.2⟩)]

/-- **C10.**  The addressing-mode classifier is total with range
`{0,1,2,3,4}`: it returns `4` exactly for an absent operand (NULL, empty,
or a single space), `0` exactly for a `#`-prefixed valid number, `3`
exactly for a register `r0`..`r7`, `2` exactly for `*` followed by a
register, and `1` for every other non-empty string, so malformed operands
such as `#abc` or `*r9` are classified as direct label references. -/
theorem get_addressing_mode_total_spec :
    (∀ s : Option (List Char),
        get_addressing_mode s = 0 ∨ get_addressing_mode s = 1 ∨ get_addressing_mode s = 2 ∨
          get_addressing_mode s = 3 ∨ get_addressing_mode s = 4) ∧
    (∀ s : Option (List Char),
        get_addressing_mode s = 4 ↔ s = none ∨ s = some [] ∨ s = some [' ']) ∧
    (∀ l : List Char,
        get_addressing_mode (some l) = 0 ↔ l.head? = some '#' ∧ is_number l = true) ∧
    (∀ l : List Char, get_addressing_mode (some l) = 3 ↔ is_register l = true) ∧
    (∀ l : List Char,
        get_addressing_mode (some l) = 2 ↔ l.head? = some '*' ∧ is_register l.tail = true) ∧
    (∀ l : List Char,
        l ≠ [] → l ≠ [' '] → ¬(l.head? = some '#' ∧ is_number l = true) →
        is_register l = false → ¬(l.head? = some '*' ∧ is_register l.tail = true) →
        get_addressing_mode (some l) = 1) ∧
    get_addressing_mode (some (cs "#abc")) = 1 ∧ get_addressing_mode (some (cs "*r9")) = 1 :=
  ⟨mode_mem_range, mode_eq_four_iff, mode_eq_zero_iff, mode_eq_three_iff,
   mode_eq_two_iff, mode_eq_one_of, by decide, by decide⟩

/-- Witness for `get_addressing_mode_total_spec` at concrete operands. -/
theorem get_addressing_mode_total_spec_witness :
    get_addressing_mode (some (cs "hello")) = 1 :=
  get_addressing_mode_total_spec.2.2.2.2.2.1 (cs "hello")
    (by decide) (by decide) (by decide) (by decide) (by decide)

/-- Observer: the first external-table entry with the given name. -/
def find_external (t : List ExternalSymbol) (name : List Char) : Option ExternalSymbol :=
  t.find? (fun e => e.name == name)

theorem add_ext_absent (t : List ExternalSymbol) (name : List Char) (addr : Int)
    (h : find_external t name = none) :
    find_external (add_external_reference t name addr) name = some ⟨name, [addr]⟩ := by
  induction t with
  | nil => simp [add_external_reference, find_external]
  | cons e rest ih =>
    rcases he : (e.name == name) with _ | _
    · have h' : find_external rest name = none := by
        simpa [find_external, List.find?_cons, he] using h
      have ih' := ih h'
      simp only [add_external_reference, he, Bool.false_eq_true, if_false]
      simpa [find_external, List.find?_cons, he] using ih'
    · exfalso
      simp [find_external, List.find?_cons, he] at h

theorem add_ext_present (t : List ExternalSymbol) (name : List Char) (addr : Int)
    (e : ExternalSymbol) (h : find_external t name = some e) :
    find_external (add_external_reference t name addr) name =
      some (if e.references.length < 100 then
              { e with references := e.references ++ [addr] } else e) := by
  induction t with
  | nil => simp [find_external] at h
  | cons e0 rest ih =>
    rcases he : (e0.name == name) with _ | _
    · have h' : find_external rest name = some e := by
        simpa [find_external, List.find?_cons, he] using h
      have ih' := ih h'
      simp only [add_external_reference, he, Bool.false_eq_true, if_false]
      simpa [find_external, List.find?_cons, he] using ih'
    · have he0 : e0 = e := by
        simpa [find_external, List.find?_cons, he] using h
      subst he0
      simp only [add_external_reference, he, if_true]
      split_ifs with hc
      · simp [find_external, List.find?_cons, he, hc]
      · simp [find_external, List.find?_cons, he, hc]

theorem add_ext_cap (t : List ExternalSymbol) (name : List Char) (addr : Int)
    (h : ∀ e ∈ t, e.references.length ≤ 100) :
    ∀ e ∈ add_external_reference t name addr, e.references.length ≤ 100 := by
  induction t with
  | nil =>
    intro e he
    simp [add_external_reference] at he
    subst he
    simp
  | cons e0 rest ih =>
    intro e he
    have h0 := h e0 (by simp)
    have hrest : ∀ x ∈ rest, x.references.length ≤ 100 :=
      fun x hx => h x (List.mem_cons_of_mem _ hx)
    simp only [add_external_reference] at he
    split_ifs at he with h1 h2
    · rcases (List.mem_cons).1 he with h3 | h3
      · subst h3
        simp only [List.length_append, List.length_cons, List.length_nil]
        omega
      · exact hrest e h3
    · rcases (List.mem_cons).1 he with h3 | h3
      · subst h3
        exact h0
      · exact hrest e h3
    · rcases (List.mem_cons).1 he with h3 | h3
      · subst h3
        exact h0
      · exact ih hrest e h3

/-- **C9.**  `add_external_reference` appends the given address to the
reference list keyed by the given name (creating the entry when absent),
and a list already holding `MAX_EXTERNAL_REFERENCES = 100` addresses is
left unchanged, so no list ever exceeds 100 addresses. -/
theorem add_external_reference_spec :
    (∀ (t : List ExternalSymbol) (name : List Char) (addr : Int),
        find_external t name = none →
        find_external (add_external_reference t name addr) name = some ⟨name, [addr]⟩) ∧
    (∀ (t : List ExternalSymbol) (name : List Char) (addr : Int) (e : ExternalSymbol),
        find_external t name = some e →
        find_external (add_external_reference t name addr) name =
          some (if e.references.length < 100 then
                  { e with references := e.references ++ [addr] } else e)) ∧
    (∀ (t : List ExternalSymbol) (name : List Char) (addr : Int),
        (∀ e ∈ t, e.references.length ≤ 100) →
        ∀ e ∈ add_external_reference t name addr, e.references.length ≤ 100) :=
  ⟨add_ext_absent, add_ext_present, add_ext_cap⟩

/-- Witness for `add_external_reference_spec`: creation, append, and cap at
concrete tables. -/
theorem add_external_reference_spec_witness :
    find_external (add_external_reference [] (cs "FOO") 101) (cs "FOO") =
      some ⟨cs "FOO", [101]⟩ ∧
    find_external
        (add_external_reference [⟨cs "FOO", [101]⟩] (cs "FOO") 205) (cs "FOO") =
      some ⟨cs "FOO", [101, 205]⟩ := by
  constructor
  · exact add_external_reference_spec.1 [] (cs "FOO") 101 (by decide)
  · have h := add_external_reference_spec.2.1 [⟨cs "FOO", [101]⟩] (cs "FOO") 205
      ⟨cs "FOO", [101]⟩ (by decide)
    simpa using h

theorem write_instruction_head (inst : Instruction) (address : Int) :
    (write_instruction inst address).head? =
      some (address,
        first_word inst.opcode inst.source_addressing inst.target_addressing &&& 0x7FFF) := by
  simp only [write_instruction]
  split_ifs <;> rfl

/-- **C2.**  The first emitted word of every encoded instruction is
`first_word &&& 0x7FFF`, whose bits 14-11 hold the opcode, whose bits
10-7 hold the one-hot source-mode bit `2 ^ source_mode` (0 when the source
is absent), whose bits 6-3 hold the one-hot target-mode bit `2 ^
target_mode` (0 when the target is absent), and whose A.R.E. bits 2-0
equal `Absolute = 4`. -/
theorem first_word_layout_spec :
    (∀ (inst : Instruction) (address : Int),
        (write_instruction inst address).head? =
          some (address,
            first_word inst.opcode inst.source_addressing inst.target_addressing &&& 0x7FFF)) ∧
    (∀ op < 16, ∀ sm < 5, ∀ tm < 5,
        (first_word (op : Nat) (sm : Nat) (tm : Nat) &&& 0x7FFF) / 2 ^ 11 % 2 ^ 4 = op ∧
        (first_word (op : Nat) (sm : Nat) (tm : Nat) &&& 0x7FFF) / 2 ^ 7 % 2 ^ 4 =
          (if sm ≠ 4 then 2 ^ sm else 0) ∧
        (first_word (op : Nat) (sm : Nat) (tm : Nat) &&& 0x7FFF) / 2 ^ 3 % 2 ^ 4 =
          (if tm ≠ 4 then 2 ^ tm else 0) ∧
        (first_word (op : Nat) (sm : Nat) (tm : Nat) &&& 0x7FFF) % 2 ^ 3 = 4) :=
  ⟨write_instruction_head, by decide⟩

/-- Witness for `first_word_layout_spec`: the `jmp FOO` first word. -/
theorem first_word_layout_spec_witness :
    (first_word (9 : Nat) (4 : Nat) (1 : Nat) &&& 0x7FFF) / 2 ^ 11 % 2 ^ 4 = 9 ∧
    (first_word (9 : Nat) (4 : Nat) (1 : Nat) &&& 0x7FFF) % 2 ^ 3 = 4 := by
  have h := first_word_layout_spec.2 9 (by decide) 4 (by decide) 1 (by decide)
  exact ⟨h.1, h.2.2.2⟩

/-- **C3** (evaluation at the spec scenario).  For `.extern FOO` then
`jmp FOO` the code emits the external operand word (low three bits `1`) at
address 101 but records the reference at address 102 (`address + 2`
regardless of whether a source word exists), so the `.ext` file reads
`FOO 0102` and names an address at which no word was emitted. -/
theorem extern_reference_recorded_at_102 :
    (assemble [cs ".extern FOO", cs "jmp FOO"] []).2 =
      some ⟨(2, 0), [(100, 18452), (101, 1)], none, some [(cs "FOO", 102)]⟩ ∧
    (1 : Nat) % 8 = 1 ∧
    (102 : Int) ∉ ([(100, 18452), (101, 1)] : List (Int × Nat)).map Prod.fst := by
  refine ⟨by decide, by decide, by decide⟩

/-- **C4** (evaluation at the failing input).  For `cmp #1, r2` the extra
word emitted for the immediate source operand is `(1 &&& 7) <<< 6 ||| 4 =
68` (the register-style encoding), not `(1 &&& 0xFFF) <<< 3 ||| 4 = 12` as
the claim states; for a target immediate (`prn #1`) the claimed encoding
is produced. -/
theorem immediate_source_word_emitted :
    write_instruction
        (encode_instruction (cs "cmp") (some (cs "#1, r2")) init_symbol_table 100).1 100 =
      [(100, 2244), (101, 68), (102, 20)] ∧
    (68 : Nat) ≠ ((1 &&& 0xFFF) <<< 3 ||| 4) ∧
    write_instruction
        (encode_instruction (cs "prn") (some (cs "#1")) init_symbol_table 100).1 100 =
      [((100 : Int), 24588), ((101 : Int), (1 &&& 0xFFF) <<< 3 ||| 4)] := by
  refine ⟨by decide, by decide, by decide⟩

/-- **C5.**  The second pass runs only when the first pass found no error,
output files are produced only when the second pass found no error, and on
the duplicate-symbol source `A: .data 1` / `A: .data 2` the first pass
logs a Symbol-category `Duplicate symbol definition` error and no output
files are produced. -/
theorem error_gating_spec :
    (∀ (lines macr_names : List (List Char)),
        (first_pass lines macr_names).error_found = true →
        (assemble lines macr_names).2 = none) ∧
    (∀ (lines : List (List Char)) (table : SymbolTable) (IC DC : Int),
        (lines.foldl second_pass_line ⟨100, table, false, [], []⟩).error_found = true →
        (second_pass lines table IC DC).2 = none) ∧
    ((first_pass [cs "A: .data 1", cs "A: .data 2"] []).error_found = true ∧
     (ErrorCategory.ERR_SYMBOL, "Duplicate symbol definition") ∈
       (first_pass [cs "A: .data 1", cs "A: .data 2"] []).log ∧
     (assemble [cs "A: .data 1", cs "A: .data 2"] []).2 = none) := by
  refine ⟨?_, ?_, by decide⟩
  · intro lines macr_names h
    simp [assemble, h]
  · intro lines table IC DC h
    simp [second_pass, h]

/-- Witness for `error_gating_spec` at the duplicate-symbol source. -/
theorem error_gating_spec_witness :
    (assemble [cs "A: .data 1", cs "A: .data 2"] []).2 = none :=
  error_gating_spec.1 [cs "A: .data 1", cs "A: .data 2"] [] (by decide)

/-- **C7.**  The `.entry` branch of the second pass: a resolvable
non-external operand is promoted to `Entry` with `has_entries` set and no
error; an external operand, an unresolvable operand, and a missing operand
each log an error.  On `LOOP: inc r3` / `.entry LOOP` / `stop` the `.ent`
file holds exactly the line `LOOP 0100`. -/
theorem entry_spec :
    (∀ (st : SPState) (name : List Char) (sym : Symbol),
        name ≠ [] → find_symbol st.table name = some sym → sym.type ≠ .external →
        handle_entry st name =
          { st with table :=
              { st.table with
                symbols := set_symbol_entry st.table.symbols name
                has_entries := true } }) ∧
    (∀ (st : SPState) (name : List Char) (sym : Symbol),
        name ≠ [] → find_symbol st.table name = some sym → sym.type = .external →
        handle_entry st name =
          { st with
            error_found := true
            log := log_error st.log .ERR_SYMBOL
              "Symbol declared as both .extern and .entry" }) ∧
    (∀ (st : SPState) (name : List Char),
        name ≠ [] → find_symbol st.table name = none →
        handle_entry st name =
          { st with
            error_found := true
            log := log_error st.log .ERR_SYMBOL
              "Entry symbol not found in symbol table" }) ∧
    (∀ st : SPState,
        handle_entry st [] =
          { st with
            error_found := true
            log := log_error st.log .ERR_SYNTAX
              "Missing operand for .entry directive" }) ∧
    (assemble [cs "LOOP: inc r3", cs ".entry LOOP", cs "stop"] []).2 =
      some ⟨(3, 0), [(100, 14404), (101, 28), (102, 30724)],
            some [(cs "LOOP", 100)], none⟩ := by
  refine ⟨?_, ?_, ?_, ?_, by decide⟩
  · intro st name sym h0 h1 h2
    simp [handle_entry, h0, h1, h2]
  · intro st name sym h0 h1 h2
    simp [handle_entry, h0, h1, h2]
  · intro st name h0 h1
    simp [handle_entry, h0, h1]
  · intro st
    simp [handle_entry]

/-- Witness for `entry_spec`: promotion at a concrete one-symbol table. -/
theorem entry_spec_witness :
    handle_entry ⟨100, ⟨[⟨cs "LOOP", 100, .code⟩], false, false, []⟩, false, [], []⟩
        (cs "LOOP") =
      ⟨100, ⟨[⟨cs "LOOP", 100, .entry⟩], true, false, []⟩, false, [], []⟩ := by
  have h := entry_spec.1
    ⟨100, ⟨[⟨cs "LOOP", 100, .code⟩], false, false, []⟩, false, [], []⟩
    (cs "LOOP") ⟨cs "LOOP", 100, .code⟩ (by decide) (by decide) (by decide)
  simpa using h

/-- **C8** (counterexample).  The single-line input `endmacr` contains no
`macr` definition, yet pre-processing drops the line, so the output is not
byte-identical to the input. -/
theorem pre_asm_drops_endmacr :
    (trim (cs "endmacr")).take 4 ≠ cs "macr" ∧
    pre_asm [cs "endmacr"] [] = ([], [], false) ∧
    ([] : List (List Char)) ≠ [cs "endmacr"] := by decide

/-- **C8** (amended).  On an input whose lines are at most 80 characters
long, none of which trims to `endmacr` or to a string starting with
`macr`, the pre-processor is the identity: it copies every line verbatim,
defines no macro and reports no error. -/
theorem pre_asm_expanded_id (lines : List (List Char))
    (h : ∀ l ∈ lines,
        l.length ≤ 80 ∧ (trim l).take 4 ≠ cs "macr" ∧ trim l ≠ cs "endmacr") :
    pre_asm lines [] = (lines, [], false) := by
  unfold pre_asm
  induction lines with
  | nil => rfl
  | cons line rest ih =>
    obtain ⟨h1, h2, h3⟩ := h line (by simp)
    have hlen : ¬ 80 < (trim line).length := by
      have h4 := trim_length_le line
      omega
    simp only [pre_asm_go, if_neg hlen, if_neg h2, if_neg h3, List.find?_nil]
    rw [ih (fun l hl => h l (List.mem_cons_of_mem _ hl))]

/-- Witness for `pre_asm_expanded_id` on a concrete two-line source. -/
theorem pre_asm_expanded_id_witness :
    pre_asm [cs "MAIN: mov r1, r2", cs "stop"] [] =
      ([cs "MAIN: mov r1, r2", cs "stop"], [], false) :=
  pre_asm_expanded_id [cs "MAIN: mov r1, r2", cs "stop"] (by decide)

theorem write_instruction_length (inst : Instruction) (address : Int) :
    (write_instruction inst address).length =
      if (inst.source_addressing = 2 ∨ inst.source_addressing = 3) ∧
         (inst.target_addressing = 2 ∨ inst.target_addressing = 3) then 2
      else 1 + (if inst.source_addressing ≠ 4 then 1 else 0) +
             (if inst.target_addressing ≠ 4 then 1 else 0) := by
  simp only [write_instruction]
  split_ifs <;> simp_all

theorem encode_instruction_addressing (operation ops : List Char)
    (table : SymbolTable) (address : Int) :
    (encode_instruction operation (some ops) table address).1.source_addressing =
      get_addressing_mode
        (some (if trim (scan_operands ops).2 = [] then [] else trim (scan_operands ops).1)) ∧
    (encode_instruction operation (some ops) table address).1.target_addressing =
      get_addressing_mode
        (some (if trim (scan_operands ops).2 = [] then trim (scan_operands ops).1
               else trim (scan_operands ops).2)) := by
  constructor <;> rfl

theorem encode_write_length (operation ops : List Char) (table : SymbolTable) (address : Int)
    (hcnt : ((if trim (scan_operands ops).1 ≠ [] then 1 else 0) +
             (if trim (scan_operands ops).2 ≠ [] then 1 else 0) : Int) =
            get_operand_count operation) :
    ((write_instruction (encode_instruction operation (some ops) table address).1
        address).length : Int) =
      get_instruction_length operation (some ops) := by
  have hmodes := encode_instruction_addressing operation ops table address
  rw [write_instruction_length, hmodes.1, hmodes.2]
  simp only [get_instruction_length]
  rw [if_neg (not_not_intro hcnt)]
  have hs4 := mode_trim_eq_four (scan_operands ops).1
  have ht4 := mode_trim_eq_four (scan_operands ops).2
  have hnil : get_addressing_mode (some ([] : List Char)) = 4 := by decide
  generalize hA : trim (scan_operands ops).1 = a at hs4 ⊢
  generalize hB : trim (scan_operands ops).2 = b at ht4 ⊢
  by_cases hbb : b = []
  · subst hbb
    by_cases haa : a = []
    · subst haa
      simp [hnil]
    · have hma : get_addressing_mode (some a) ≠ 4 := fun h => haa (hs4.mp h)
      simp [hnil, hma, haa]
  · have hmb : get_addressing_mode (some b) ≠ 4 := fun h => hbb (ht4.mp h)
    by_cases hreg :
        (get_addressing_mode (some a) = 3 ∨ get_addressing_mode (some a) = 2) ∧
        (get_addressing_mode (some b) = 3 ∨ get_addressing_mode (some b) = 2)
    · have hregL := And.intro hreg.1.symm hreg.2.symm
      simp [hbb, hreg, hregL]
    · have hregL :
          ¬((get_addressing_mode (some a) = 2 ∨ get_addressing_mode (some a) = 3) ∧
            (get_addressing_mode (some b) = 2 ∨ get_addressing_mode (some b) = 3)) :=
        fun h => hreg ⟨h.1.symm, h.2.symm⟩
      by_cases haa : a = []
      · simp [hbb, haa, hreg, hregL, hnil, hmb]
      · have hma : get_addressing_mode (some a) ≠ 4 := fun h => haa (hs4.mp h)
        simp [hbb, haa, hreg, hregL, hma, hmb]

/-- **C1.**  When the number of present operands (parsed by the shared
`sscanf` split) equals the catalog's expected count, the instruction
length is `1` plus one word per present operand, except that it is exactly
`2` when both operands are register-addressing (mode 2 or 3), and the
number of words emitted by `write_instruction` for the encoded instruction
equals that length; when the count differs from the catalog's expected
count, the length function returns `-1`. -/
theorem instruction_shape_spec (operation ops : List Char) (table : SymbolTable)
    (address : Int) :
    (((if trim (scan_operands ops).1 ≠ [] then 1 else 0) +
       (if trim (scan_operands ops).2 ≠ [] then 1 else 0) : Int) =
        get_operand_count operation →
      get_instruction_length operation (some ops) =
        (if (get_addressing_mode (some (trim (scan_operands ops).1)) = 3 ∨
             get_addressing_mode (some (trim (scan_operands ops).1)) = 2) ∧
            (get_addressing_mode (some (trim (scan_operands ops).2)) = 3 ∨
             get_addressing_mode (some (trim (scan_operands ops).2)) = 2)
         then 2
         else 1 + ((if trim (scan_operands ops).1 ≠ [] then 1 else 0) +
                   (if trim (scan_operands ops).2 ≠ [] then 1 else 0))) ∧
      ((write_instruction (encode_instruction operation (some ops) table address).1
          address).length : Int) =
        get_instruction_length operation (some ops)) ∧
    (((if trim (scan_operands ops).1 ≠ [] then 1 else 0) +
       (if trim (scan_operands ops).2 ≠ [] then 1 else 0) : Int) ≠
        get_operand_count operation →
      get_instruction_length operation (some ops) = -1) := by
  constructor
  · intro hcnt
    constructor
    · simp only [get_instruction_length]
      rw [if_neg (not_not_intro hcnt)]
    · exact encode_write_length operation ops table address hcnt
  · intro hcnt
    simp only [get_instruction_length]
    rw [if_pos hcnt]

/-- Witness for `instruction_shape_spec`: `mov r1, r2` (register pair, 2
words), `mov #1, r2` (3 words) and `mov r1` (wrong count, `-1`). -/
theorem instruction_shape_spec_witness :
    get_instruction_length (cs "mov") (some (cs "r1, r2")) = 2 ∧
    get_instruction_length (cs "mov") (some (cs "#1, r2")) = 3 ∧
    get_instruction_length (cs "mov") (some (cs "r1")) = -1 := by
  refine ⟨?_, ?_, ?_⟩
  · exact Eq.trans
      (((instruction_shape_spec (cs "mov") (cs "r1, r2") init_symbol_table 100).1
        (by decide)).1) (by decide)
  · exact Eq.trans
      (((instruction_shape_spec (cs "mov") (cs "#1, r2") init_symbol_table 100).1
        (by decide)).1) (by decide)
  · exact (instruction_shape_spec (cs "mov") (cs "r1") init_symbol_table 100).2 (by decide)

/-- Loop invariant of the first pass: `IC` never drops below
`FIRST_ADDRESS = 100`, `DC` stays non-negative, every `Code` symbol sits in
`[100, IC)` and every `Data` symbol has a non-negative (pre-rebase)
address. -/
def fp_inv (st : FPState) : Prop :=
  100 ≤ st.IC ∧ 0 ≤ st.DC ∧
  ∀ s ∈ st.table.symbols,
    (s.type = SymbolType.code → 100 ≤ s.address ∧ s.address < st.IC) ∧
    (s.type = SymbolType.data → 0 ≤ s.address)

theorem add_symbol_mem (t : SymbolTable) (macrs : List (List Char)) (name : List Char)
    (address : Int) (ty : SymbolType) (log : List LogEntry) :
    ∀ s ∈ (add_symbol t macrs name address ty log).table.symbols,
      s ∈ t.symbols ∨ s = ⟨name.take 31, address, ty⟩ := by
  intro s hs
  unfold add_symbol at hs
  split_ifs at hs <;> simp at hs
  · exact Or.inl hs
  · exact Or.inl hs
  · rcases hs with hs | hs
    · exact Or.inl hs
    · exact Or.inr hs

theorem sym_bound_after_add (t : SymbolTable) (macrs : List (List Char)) (name : List Char)
    (addr : Int) (ty : SymbolType) (log : List LogEntry) (B : Int)
    (hsymB : ∀ s ∈ t.symbols,
      (s.type = SymbolType.code → 100 ≤ s.address ∧ s.address < B) ∧
      (s.type = SymbolType.data → 0 ≤ s.address))
    (hnew : ty = SymbolType.code → 100 ≤ addr ∧ addr < B)
    (hnew2 : ty = SymbolType.data → 0 ≤ addr) :
    ∀ s ∈ (add_symbol t macrs name addr ty log).table.symbols,
      (s.type = SymbolType.code → 100 ≤ s.address ∧ s.address < B) ∧
      (s.type = SymbolType.data → 0 ≤ s.address) := by
  intro s hm
  rcases add_symbol_mem t macrs name addr ty log s hm with h | h
  · exact hsymB s h
  · subst h
    exact ⟨fun hc => hnew hc, fun hd => hnew2 hd⟩

theorem extern_fold_inv (macr_names : List (List Char)) :
    ∀ (toks : List (List Char)) (st : FPState),
      (extern_fold macr_names toks st).IC = st.IC ∧
      (extern_fold macr_names toks st).DC = st.DC ∧
      ∀ s ∈ (extern_fold macr_names toks st).table.symbols,
        s ∈ st.table.symbols ∨ s.type = SymbolType.external := by
  intro toks
  induction toks with
  | nil => exact fun st => ⟨rfl, rfl, fun s hs => Or.inl hs⟩
  | cons tok rest ih =>
    intro st
    simp only [extern_fold]
    split_ifs with hok
    all_goals
      obtain ⟨h1, h2, h3⟩ := ih _
      refine ⟨h1, h2, fun s hs => ?_⟩
      rcases h3 s hs with hs' | hs'
      · rcases add_symbol_mem st.table macr_names tok 0 .external st.log s hs' with hh | hh
        · exact Or.inl hh
        · right
          rw [hh]
      · exact Or.inr hs'

theorem validate_string_length (s : List Char) (h : validate_string s = true) :
    2 ≤ s.length := by
  unfold validate_string at h
  simp only [Bool.and_eq_true, decide_eq_true_eq] at h
  exact h.1.1.1

theorem fp_dispatch_inv (macr_names : List (List Char)) (st : FPState)
    (label operation operands : List Char) (h : fp_inv st) :
    fp_inv (fp_dispatch macr_names st label operation operands) := by
  obtain ⟨hIC, hDC, hsym⟩ := h
  have hcnt0 : (0 : Int) ≤ count_data_values operands := Int.natCast_nonneg _
  simp only [fp_dispatch]
  split_ifs
  -- .data, invalid count, with label
  · exact ⟨hIC, hDC,
      sym_bound_after_add st.table macr_names label st.DC .data st.log st.IC hsym
        (by simp) (fun _ => hDC)⟩
  -- .data, invalid count, no label
  · exact ⟨hIC, hDC, hsym⟩
  -- .data, valid count, with label
  · exact ⟨hIC, add_nonneg hDC hcnt0,
      sym_bound_after_add st.table macr_names label st.DC .data st.log st.IC hsym
        (by simp) (fun _ => hDC)⟩
  -- .data, valid count, no label
  · exact ⟨hIC, add_nonneg hDC hcnt0, hsym⟩
  -- .string, invalid literal, with label
  · exact ⟨hIC, hDC,
      sym_bound_after_add st.table macr_names label st.DC .data st.log st.IC hsym
        (by simp) (fun _ => hDC)⟩
  -- .string, invalid literal, no label
  · exact ⟨hIC, hDC, hsym⟩
  -- .string, valid literal, with label
  · rename_i hv hlab
    have hv2 : validate_string operands = true := by
      revert hv
      cases validate_string operands <;> simp
    have hlen := validate_string_length operands hv2
    refine ⟨hIC, by dsimp only; omega,
      sym_bound_after_add st.table macr_names label st.DC .data st.log st.IC hsym
        (by simp) (fun _ => hDC)⟩
  -- .string, valid literal, no label
  · rename_i hv hlab
    have hv2 : validate_string operands = true := by
      revert hv
      cases validate_string operands <;> simp
    have hlen := validate_string_length operands hv2
    exact ⟨hIC, by dsimp only; omega, hsym⟩
  -- .entry
  · exact ⟨hIC, hDC, hsym⟩
  -- .extern, missing operand
  · exact ⟨hIC, hDC, hsym⟩
  -- .extern, token fold
  · obtain ⟨hICf, hDCf, hsymf⟩ :=
      extern_fold_inv macr_names (segments [',', ' ', '\t'] (trim operands)) st
    refine ⟨by rw [hICf]; exact hIC, by rw [hDCf]; exact hDC, fun s hs => ?_⟩
    rcases hsymf s hs with hs' | hs'
    · refine ⟨fun hc => ?_, fun hd => ?_⟩
      · rw [hICf]
        exact (hsym s hs').1 hc
      · exact (hsym s hs').2 hd
    · refine ⟨fun hc => ?_, fun hd => ?_⟩
      · exact absurd (hs'.symm.trans hc) (by simp)
      · exact absurd (hs'.symm.trans hd) (by simp)
  -- instruction, bad length
  · exact ⟨hIC, hDC, hsym⟩
  -- instruction, with label
  · rename_i hop hlen hlab
    have hlen1 := get_instruction_length_ge_one operation (some operands) hlen
    refine ⟨by dsimp only; omega, hDC, ?_⟩
    refine sym_bound_after_add st.table macr_names label st.IC .code st.log
      (st.IC + get_instruction_length operation (some operands))
      (fun s hm => ⟨fun hc => ⟨((hsym s hm).1 hc).1, by have := ((hsym s hm).1 hc).2; omega⟩,
                    (hsym s hm).2⟩)
      (fun _ => ⟨hIC, by omega⟩) (by simp)
  -- instruction, no label
  · rename_i hop hlen hlab
    have hlen1 := get_instruction_length_ge_one operation (some operands) hlen
    refine ⟨by dsimp only; omega, hDC, fun s hm => ?_⟩
    exact ⟨fun hc => ⟨((hsym s hm).1 hc).1,
             by have := ((hsym s hm).1 hc).2; dsimp only; omega⟩,
           (hsym s hm).2⟩
  -- unknown operation
  · exact ⟨hIC, hDC, hsym⟩

theorem first_pass_line_inv (macr_names : List (List Char)) (st : FPState)
    (raw : List Char) (h : fp_inv st) : fp_inv (first_pass_line macr_names st raw) := by
  obtain ⟨hIC, hDC, hsym⟩ := h
  simp only [first_pass_line]
  split_ifs
  · exact ⟨hIC, hDC, hsym⟩
  · exact ⟨hIC, hDC, hsym⟩
  · exact ⟨hIC, hDC, hsym⟩
  · exact fp_dispatch_inv macr_names st _ _ _ ⟨hIC, hDC, hsym⟩

theorem foldl_fp_inv (macr_names : List (List Char)) (lines : List (List Char))
    (st : FPState) (h : fp_inv st) :
    fp_inv (lines.foldl (first_pass_line macr_names) st) := by
  induction lines generalizing st with
  | nil => exact h
  | cons l rest ih => exact ih _ (first_pass_line_inv macr_names st l h)

/-- **C6.**  After the first pass every `Data` symbol's address has been
rebased by the final `IC` and is therefore at least the final `IC`, and
every `Code` symbol's address lies in `[100, final IC)`. -/
theorem first_pass_symbol_addresses (lines macr_names : List (List Char)) :
    ∀ s ∈ (first_pass lines macr_names).table.symbols,
      (s.type = SymbolType.data → (first_pass lines macr_names).IC ≤ s.address) ∧
      (s.type = SymbolType.code →
        100 ≤ s.address ∧ s.address < (first_pass lines macr_names).IC) := by
  intro s hs
  obtain ⟨hIC, hDC, hsym⟩ :=
    foldl_fp_inv macr_names lines ⟨100, 0, init_symbol_table, false, []⟩
      ⟨by norm_num, le_refl 0, by simp [init_symbol_table]⟩
  simp only [first_pass] at hs ⊢
  rw [List.mem_map] at hs
  obtain ⟨s0, hs0, hmap⟩ := hs
  subst hmap
  by_cases h0 : s0.type = SymbolType.data
  · rw [if_pos h0]
    refine ⟨fun _ => ?_, fun hc => ?_⟩
    · have := (hsym s0 hs0).2 h0
      dsimp only
      omega
    · exact absurd (h0.symm.trans hc) (by simp)
  · rw [if_neg h0]
    exact ⟨fun hd => absurd hd h0, (hsym s0 hs0).1⟩

/-- Witness for `first_pass_symbol_addresses` on `LOOP: inc r3` /
`D: .data 5`: the data symbol `D` ends at address 102 = final `IC`, the
code symbol `LOOP` at 100. -/
theorem first_pass_symbol_addresses_witness :
    (first_pass [cs "LOOP: inc r3", cs "D: .data 5"] []).IC ≤ 102 ∧
    (100 : Int) ≤ 100 ∧ (100 : Int) < (first_pass [cs "LOOP: inc r3", cs "D: .data 5"] []).IC := by
  constructor
  · exact (first_pass_symbol_addresses [cs "LOOP: inc r3", cs "D: .data 5"] []
      ⟨cs "D", 102, .data⟩ (by decide)).1 rfl
  · exact (first_pass_symbol_addresses [cs "LOOP: inc r3", cs "D: .data 5"] []
      ⟨cs "LOOP", 100, .code⟩ (by decide)).2 rfl

end Asm
